import Mathlib

/-!
# Workout tracking page (`src/front-end/src/app/add-workout/page.js`)

A shallow embedding of the state and the event handlers of the `WorkoutTracking`
component, and of the two values it derives on every render (`filteredWorkouts`
and `groupedWorkouts` / `chartData`).

Modelling conventions.

* A workout record is a JavaScript object with the string properties `type`,
  `duration`, `frequency`, `intensity` and the property `date`, which is a string
  or absent: the draft that line 43 installs after a successful submit has no
  `date` property.
* The array `workouts` is a list of records. An assignment past the end of an
  array leaves holes in it; such arrays are outside the list model and the
  assignment returns `none` there (see `arrayAssign`).
* A JavaScript number that `parseInt` and `+` produce here is `NaN`, an infinity,
  the negative zero or a double with an integer value (`JSNumber`); `parseInt` and
  `+` round to the nearest double, ties to even (`toDouble`).
* The accumulator object of `groupedWorkouts` holds its own properties in the
  order of their creation. A read falls back to `Object.prototype`, a write to
  `__proto__` is ignored, and `Object.keys` lists array-index keys first. A
  string that `+=` builds from a function or an object of `Object.prototype` is
  kept as the value `text`; its characters are not modelled.
* `String.prototype.toLowerCase` is a parameter `toLowerCase : String → String`
  of the definitions that call it.
-/

namespace WorkoutTracking

/-! ## Data model -/

/-- A workout record, and also the shape of the form draft. -/
structure Workout where
  type : String
  duration : String
  frequency : String
  intensity : String
  date : Option String
  deriving DecidableEq, Repr

/-- The names of the five form inputs (`e.target.name`). -/
inductive Field where
  | type
  | duration
  | frequency
  | intensity
  | date
  deriving DecidableEq, Repr

/-- The component state: the five `useState` cells of lines 14 to 22. -/
structure State where
  workouts : List Workout
  form : Workout
  isEditing : Bool
  currentEditIndex : Option Nat
  filter : String
  deriving DecidableEq, Repr

/-- The three records of lines 15 to 17. -/
def initialWorkouts : List Workout :=
  [ { type := "Running", duration := "30 mins", frequency := "Daily",
      intensity := "Moderate", date := some "2024-11-14" },
    { type := "Yoga", duration := "45 mins", frequency := "Weekly",
      intensity := "Low", date := some "2024-11-13" },
    { type := "Cycling", duration := "20 mins", frequency := "Weekly",
      intensity := "High", date := some "2024-11-12" } ]

/-- The draft of line 19, with an empty `date`. -/
def initialForm : Workout :=
  { type := "", duration := "", frequency := "", intensity := "", date := some "" }

/-- The draft of line 43, installed after a successful submit: no `date`. -/
def clearedForm : Workout :=
  { type := "", duration := "", frequency := "", intensity := "", date := none }

/-- The state of the first render. -/
def initialState : State :=
  { workouts := initialWorkouts, form := initialForm, isEditing := false,
    currentEditIndex := none, filter := "" }

/-! ## Event handlers -/

/-- Lines 24 to 27: `setForm({ ...form, [name]: value })`. -/
def handleInputChange (s : State) (name : Field) (value : String) : State :=
  match name with
  | .type => { s with form := { s.form with type := value } }
  | .duration => { s with form := { s.form with duration := value } }
  | .frequency => { s with form := { s.form with frequency := value } }
  | .intensity => { s with form := { s.form with intensity := value } }
  | .date => { s with form := { s.form with date := some value } }

/-- The test of line 30: one of the four checked fields is the empty string. -/
def missingField (form : Workout) : Bool :=
  form.type == "" || form.duration == "" || form.frequency == "" || form.intensity == ""

/-- The assignment `updatedWorkouts[index] = value` on a copy of the array: inside
the bounds it overwrites the element, at `index = length` it adds one element,
and further out it would leave holes, which a list of records cannot hold. -/
def arrayAssign (ws : List Workout) (index : Nat) (value : Workout) : Option (List Workout) :=
  if index < ws.length then some (ws.set index value)
  else if index = ws.length then some (ws ++ [value])
  else none

/-- Lines 29 to 44. With `currentEditIndex` equal to `null` the assignment of
line 36 creates a property named `null` and no element, so the list of records
stays as it is. -/
def handleAddWorkout (s : State) : Option State :=
  if missingField s.form then
    some s
  else if s.isEditing then
    match s.currentEditIndex with
    | none =>
      some { s with isEditing := false, currentEditIndex := none, form := clearedForm }
    | some index =>
      match arrayAssign s.workouts index s.form with
      | none => none
      | some updatedWorkouts =>
        some { s with workouts := updatedWorkouts, isEditing := false,
                      currentEditIndex := none, form := clearedForm }
  else
    some { s with workouts := s.workouts ++ [s.form], form := clearedForm }

/-- Lines 46 to 50. For an index outside the array `workouts[index]` is
`undefined`, the draft becomes `undefined` and the next render throws on
`form.type`: the result is `none`. -/
def handleEditWorkout (s : State) (index : Nat) : Option State :=
  match s.workouts[index]? with
  | none => none
  | some w => some { s with form := w, isEditing := true, currentEditIndex := some index }

/-- The callback filter of line 53: `workouts.filter((_, i) => i !== index)`. -/
def filterIndexNe (index : Nat) : Nat → List Workout → List Workout
  | _, [] => []
  | i, w :: ws =>
    if i != index then w :: filterIndexNe index (i + 1) ws
    else filterIndexNe index (i + 1) ws

/-- Lines 52 to 55. -/
def handleDeleteWorkout (s : State) (index : Nat) : State :=
  { s with workouts := filterIndexNe index 0 s.workouts }

/-! ## Derived values -/

/-- The test `q` occurs at the start of `s`, on characters. -/
def startsWithChars : List Char → List Char → Bool
  | _, [] => true
  | [], _ :: _ => false
  | c :: s, d :: q => c == d && startsWithChars s q

/-- The test `q` occurs somewhere in `s`, on characters. -/
def includesChars : List Char → List Char → Bool
  | [], q => startsWithChars [] q
  | c :: s, q => startsWithChars (c :: s) q || includesChars s q

/-- The method `String.prototype.includes`: `s.includes(q)`. -/
def includes (s q : String) : Bool :=
  includesChars s.data q.data

/-- The callback of lines 58 to 61. -/
def matchesFilter (toLowerCase : String → String) (filter : String) (workout : Workout) : Bool :=
  includes (toLowerCase workout.type) (toLowerCase filter) ||
    includes (toLowerCase workout.intensity) (toLowerCase filter)

/-- Lines 57 to 62: the empty string is falsy, so the store itself is shown. -/
def filteredWorkouts (toLowerCase : String → String) (workouts : List Workout)
    (filter : String) : List Workout :=
  if filter != "" then workouts.filter (matchesFilter toLowerCase filter) else workouts

/-! ## Numbers -/

/-- The values of the JavaScript type Number that occur on this page: `NaN`, the
two infinities, the negative zero, and the doubles with an integer value
(`finite 0` is the positive zero). `parseInt` yields only such values and a sum
of two of them is again one. -/
inductive JSNumber where
  | nan
  | infinity (negative : Bool)
  | negZero
  | finite (n : Int)
  deriving DecidableEq, Repr

/-- The number of bits by which `m` exceeds the 53 bits of a double's
significand; the fuel bounds the count. -/
def excessBits : Nat → Nat → Nat
  | 0, _ => 0
  | fuel + 1, m => if m < 2 ^ 53 then 0 else excessBits fuel (m / 2) + 1

/-- The significand of the double nearest to the natural number `m`, which is
that significand times `2 ^ excessBits 1024 m`: the bits beyond the 53rd are
rounded off, to the nearest and for a tie to the even significand. -/
def roundedSignificand (m : Nat) : Nat :=
  let shift := excessBits 1024 m
  let q := m / 2 ^ shift
  let r := m % 2 ^ shift
  if 2 ^ shift < 2 * r ∨ (2 * r = 2 ^ shift ∧ q % 2 = 1) then q + 1 else q

/-- The Number for an integer: the nearest double, or an infinity when the
rounded magnitude reaches `2 ^ 1024`, which is `2 ^ 53 * 2 ^ 971`. -/
def toDouble (n : Int) : JSNumber :=
  let shift := excessBits 1024 n.natAbs
  let significand := roundedSignificand n.natAbs
  if 971 < shift ∨ (shift = 971 ∧ significand = 2 ^ 53) then .infinity (decide (n < 0))
  else if n < 0 then .finite (-((significand * 2 ^ shift : Nat) : Int))
  else .finite ((significand * 2 ^ shift : Nat) : Int)

/-- The operator `+` on two Numbers: `NaN` absorbs, opposite infinities give
`NaN`, the sum of two finite values is rounded to the nearest double, and an
exact sum of zero is the positive zero unless both operands are negative zeros. -/
def numAdd : JSNumber → JSNumber → JSNumber
  | .nan, _ => .nan
  | _, .nan => .nan
  | .infinity a, .infinity b => if a = b then .infinity a else .nan
  | .infinity a, _ => .infinity a
  | _, .infinity b => .infinity b
  | .negZero, .negZero => .negZero
  | .negZero, .finite b => .finite b
  | .finite a, .negZero => .finite a
  | .finite a, .finite b => toDouble (a + b)

/-- The code points of `StrWhiteSpaceChar` (white space and line terminators),
which `parseInt` skips at the start of its argument. -/
def isStrWhiteSpaceChar (c : Char) : Bool :=
  let n := c.toNat
  n == 0x09 || n == 0x0A || n == 0x0B || n == 0x0C || n == 0x0D || n == 0x20 ||
    n == 0xA0 || n == 0x1680 || (0x2000 ≤ n && n ≤ 0x200A) || n == 0x2028 ||
    n == 0x2029 || n == 0x202F || n == 0x205F || n == 0x3000 || n == 0xFEFF

/-- The value of a run of decimal digits, read from the left. -/
def digitsValue (digits : List Char) : Nat :=
  digits.foldl (fun n c => 10 * n + (c.toNat - 48)) 0

/-- The call `parseInt(string, 10)` of line 67: skip leading white space, note a
leading `-`, drop a leading sign, read the longest run of decimal digits. With no
digit the result is `NaN`; otherwise it is the Number for the signed value of the
run, which is the negative zero for a run of value zero after a `-`. -/
def parseInt (string : String) : JSNumber :=
  let trimmed := string.data.dropWhile isStrWhiteSpaceChar
  let negative := trimmed.head? == some '-'
  let unsigned :=
    if trimmed.head? == some '-' || trimmed.head? == some '+' then trimmed.tail
    else trimmed
  let digits := unsigned.takeWhile Char.isDigit
  if digits.isEmpty then .nan
  else if negative && digitsValue digits == 0 then .negZero
  else if negative then toDouble (-(digitsValue digits : Int))
  else toDouble (digitsValue digits : Int)

/-! ## Aggregation per date -/

/-- The property key that `acc[date]` uses: the string itself, and the word
`undefined` for a record without a `date`. -/
def dateKey (workout : Workout) : String :=
  match workout.date with
  | some d => d
  | none => "undefined"

/-- What a read of `acc[date]` can give. `text` is a string that `+=` built from a
value of `Object.prototype` and a number: it is never empty, and its characters
depend on the engine and are not modelled. `inherited` is a function or an object
that the read finds on `Object.prototype`. -/
inductive Value where
  | undefined
  | number (x : JSNumber)
  | text
  | inherited
  deriving DecidableEq, Repr

/-- The names of the properties of `Object.prototype`, which every read of a key
that `acc` does not own falls back to. -/
def objectPrototypeNames : List String :=
  ["constructor", "hasOwnProperty", "isPrototypeOf", "propertyIsEnumerable",
   "toLocaleString", "toString", "valueOf", "__defineGetter__", "__defineSetter__",
   "__lookupGetter__", "__lookupSetter__", "__proto__"]

/-- The accumulator object of the `reduce`, which starts as `{}`: its own
properties in the order of their creation. -/
abbrev Accumulator := List (String × Value)

/-- The own property `key` of `acc`, when there is one. -/
def Accumulator.own (acc : Accumulator) (key : String) : Option Value :=
  match acc with
  | [] => none
  | (k, v) :: rest => if k = key then some v else Accumulator.own rest key

/-- The read `acc[key]`: the own property, else the property of
`Object.prototype` of that name, else `undefined`. -/
def Accumulator.read (acc : Accumulator) (key : String) : Value :=
  match Accumulator.own acc key with
  | some v => v
  | none => if key ∈ objectPrototypeNames then .inherited else .undefined

/-- The creation or update of the own property `key`: an existing property keeps
its place, a new one goes to the end. -/
def Accumulator.assign (acc : Accumulator) (key : String) (value : Value) : Accumulator :=
  match acc with
  | [] => [(key, value)]
  | (k, v) :: rest =>
    if k = key then (k, value) :: rest else (k, v) :: Accumulator.assign rest key value

/-- The write `acc[key] = value`. For the key `__proto__` it calls the setter of
`Object.prototype`, which ignores a value that is a number or a string; for
every other key it creates or updates the own property. -/
def Accumulator.write (acc : Accumulator) (key : String) (value : Value) : Accumulator :=
  if key = "__proto__" then acc else Accumulator.assign acc key value

/-- Truthiness of what `acc[date]` reads: `undefined`, `NaN` and the two zeros are
falsy; the other numbers, a non-empty string, a function and an object are
truthy. -/
def truthy : Value → Bool
  | .undefined => false
  | .number .nan => false
  | .number .negZero => false
  | .number (.finite n) => n != 0
  | .number (.infinity _) => true
  | .text => true
  | .inherited => true

/-- The value of `acc[date] + duration`: a sum of Numbers for a number, `NaN` for
`undefined`, and a string concatenation for a string, a function or an object. -/
def Value.plus (v : Value) (duration : JSNumber) : Value :=
  match v with
  | .undefined => .number .nan
  | .number x => .number (numAdd x duration)
  | .text => .text
  | .inherited => .text

/-- The callback of the `reduce`, lines 65 to 77. -/
def groupStep (acc : Accumulator) (workout : Workout) : Accumulator :=
  let date := dateKey workout
  let duration := parseInt workout.duration
  if truthy (Accumulator.read acc date) then
    Accumulator.write acc date (Value.plus (Accumulator.read acc date) duration)
  else
    Accumulator.write acc date (.number duration)

/-- Lines 65 to 78: `workouts.reduce(callback, {})`. -/
def groupedWorkouts (workouts : List Workout) : Accumulator :=
  workouts.foldl groupStep []

/-- The array index that a property key denotes, when it does: the key is the
decimal numeral, without a leading zero, of a number up to `2 ^ 32 - 2`. -/
def arrayIndex? (key : String) : Option Nat :=
  if key.data ≠ [] ∧ key.data.all Char.isDigit = true ∧
      (key.data.head? ≠ some '0' ∨ key.data.length = 1) ∧
      digitsValue key.data ≤ 4294967294 then
    some (digitsValue key.data)
  else none

/-- The own properties in the order in which `Object.keys` and `Object.values`
list them: first the keys that are array indices, by ascending index, then the
other keys in the order of their creation. -/
def Accumulator.ordered (acc : Accumulator) : List (String × Value) :=
  ((acc.filterMap (fun p => (arrayIndex? p.1).map (fun i => (i, p)))).insertionSort
      (fun a b => a.1 ≤ b.1)).map Prod.snd ++
    acc.filter (fun p => (arrayIndex? p.1).isNone)

/-- The call `Object.keys(groupedWorkouts)` of line 82. -/
def Accumulator.keys (acc : Accumulator) : List String :=
  (Accumulator.ordered acc).map Prod.fst

/-- The call `Object.values(groupedWorkouts)` of line 86. -/
def Accumulator.values (acc : Accumulator) : List Value :=
  (Accumulator.ordered acc).map Prod.snd

/-- The two lists of `chartData` that depend on the state. -/
structure ChartData where
  labels : List String
  data : List Value
  deriving DecidableEq, Repr

/-- Lines 81 to 93. -/
def chartData (workouts : List Workout) : ChartData :=
  { labels := Accumulator.keys (groupedWorkouts workouts),
    data := Accumulator.values (groupedWorkouts workouts) }

/-! ## The actions of the view -/

/-- What the user can do on the page: change a form input, press the submit
button, change the filter input, press Edit or Delete on a row of the list. -/
inductive Action where
  | change (name : Field) (value : String)
  | submit
  | setFilter (value : String)
  | edit (row : Nat)
  | delete (row : Nat)
  deriving DecidableEq, Repr

/-- One action. The Edit and Delete buttons exist for the rows of
`filteredWorkouts` only (lines 214 to 229) and pass the row number. -/
def step (toLowerCase : String → String) (s : State) : Action → Option State
  | .change name value => some (handleInputChange s name value)
  | .submit => handleAddWorkout s
  | .setFilter value => some { s with filter := value }
  | .edit row =>
    if row < (filteredWorkouts toLowerCase s.workouts s.filter).length then
      handleEditWorkout s row
    else none
  | .delete row =>
    if row < (filteredWorkouts toLowerCase s.workouts s.filter).length then
      some (handleDeleteWorkout s row)
    else none

/-- A sequence of actions, from left to right. -/
def run (toLowerCase : String → String) (s : State) : List Action → Option State
  | [] => some s
  | a :: rest =>
    match step toLowerCase s a with
    | none => none
    | some s' => run toLowerCase s' rest

/-- The distinct elements of a list of keys, each once, in the order of their
first occurrence. -/
def firstOccurrences : List String → List String
  | [] => []
  | d :: rest => d :: (firstOccurrences rest).filter (fun e => e != d)

/-- The value of a run of decimal digits given from the last digit to the first:
the sum of the digits times the powers of ten. -/
def decimalValue : List Char → Nat
  | [] => 0
  | c :: rest => (c.toNat - '0'.toNat) + 10 * decimalValue rest

/-- The value of the longest run of decimal digits that a list of characters
starts with, when the run is not empty. -/
def digitRunValue (cs : List Char) : Option Nat :=
  if cs.takeWhile Char.isDigit = [] then none
  else some (decimalValue (cs.takeWhile Char.isDigit).reverse)

/-- The integer that a string starts with, when it starts with one: an optional
sign `-` or `+` followed at once by at least one decimal digit; the integer is
read from the longest run of digits. For `30 mins` it is `30`, for `abc` there
is none. -/
def leadingInteger (s : String) : Option Int :=
  match s.data with
  | [] => none
  | c :: cs =>
    if c = '-' then (digitRunValue cs).map (fun (m : Nat) => -(m : Int))
    else if c = '+' then (digitRunValue cs).map (fun (m : Nat) => (m : Int))
    else (digitRunValue (c :: cs)).map (fun (m : Nat) => (m : Int))

/-- The integers that the durations of the records of the date key `d` start
with, in the order of the records; a duration that starts with none counts as
`0`. -/
def leadingIntegers (d : String) (workouts : List Workout) : List Int :=
  (workouts.filter (fun w => w.date.getD "undefined" == d)).map
    (fun w => (leadingInteger w.duration).getD 0)

/-- The lower-casing of the ASCII letters, which is what `toLowerCase` does on
strings of ASCII characters. -/
def asciiLower (s : String) : String :=
  String.mk (s.data.map Char.toLower)

/-! ## Concrete states and lists -/

/-- An edit-mode state whose draft has an empty `duration`. -/
def draftWithoutDuration : State :=
  { workouts := initialWorkouts,
    form := { type := "Swimming", duration := "", frequency := "Daily",
              intensity := "Low", date := some "2024-11-15" },
    isEditing := true, currentEditIndex := some 1, filter := "" }

/-- An add-mode state whose draft is valid and has no `date`. -/
def draftWithoutDate : State :=
  { workouts := initialWorkouts,
    form := { type := "Swimming", duration := "15 mins", frequency := "Daily",
              intensity := "Low", date := none },
    isEditing := false, currentEditIndex := none, filter := "" }

/-- An edit-mode state that tracks row 1 and holds a valid draft. -/
def editingSecondRow : State :=
  { workouts := initialWorkouts,
    form := { type := "Yoga", duration := "45 mins", frequency := "Weekly",
              intensity := "High", date := some "2024-11-13" },
    isEditing := true, currentEditIndex := some 1, filter := "" }

/-- Three records with the dates and durations of the aggregation example. -/
def exampleWorkouts : List Workout :=
  [ { type := "Running", duration := "30 mins", frequency := "Daily",
      intensity := "Moderate", date := some "2024-11-14" },
    { type := "Walking", duration := "10 mins", frequency := "Daily",
      intensity := "Low", date := some "2024-11-14" },
    { type := "Cycling", duration := "20 mins", frequency := "Weekly",
      intensity := "High", date := some "2024-11-12" } ]

/-- Two records of one date, the first with a duration that has no leading
integer. -/
def unparsableFirst : List Workout :=
  [ { type := "Running", duration := "abc", frequency := "Daily",
      intensity := "Moderate", date := some "2024-11-14" },
    { type := "Walking", duration := "30 mins", frequency := "Daily",
      intensity := "Low", date := some "2024-11-14" } ]

/-- The state after Edit on row 2 and Delete on row 2 of the first render. -/
def staleEditState : State :=
  { workouts :=
      [ { type := "Running", duration := "30 mins", frequency := "Daily",
          intensity := "Moderate", date := some "2024-11-14" },
        { type := "Yoga", duration := "45 mins", frequency := "Weekly",
          intensity := "Low", date := some "2024-11-13" } ],
    form := { type := "Cycling", duration := "20 mins", frequency := "Weekly",
              intensity := "High", date := some "2024-11-12" },
    isEditing := true, currentEditIndex := some 2, filter := "" }

/-- The first render with the filter input set to `yoga`. -/
def filteredByYoga : State :=
  { initialState with filter := "yoga" }

/-- Three records of one date whose running total is `0` after the second one. -/
def totalThroughZero : List Workout :=
  [ { type := "Running", duration := "5 mins", frequency := "Daily",
      intensity := "Moderate", date := some "2024-11-14" },
    { type := "Walking", duration := "-5 mins", frequency := "Daily",
      intensity := "Low", date := some "2024-11-14" },
    { type := "Cycling", duration := "7 mins", frequency := "Weekly",
      intensity := "High", date := some "2024-11-14" } ]

/-- One record whose duration is the numeral of `2 ^ 53 + 1`. -/
def beyondExactRange : List Workout :=
  [ { type := "Running", duration := "9007199254740993", frequency := "Daily",
      intensity := "Moderate", date := some "2024-11-14" } ]

/-- Three records whose first two dates are the numerals `2024` and `7`. -/
def numeralDates : List Workout :=
  [ { type := "Running", duration := "30 mins", frequency := "Daily",
      intensity := "Moderate", date := some "2024" },
    { type := "Walking", duration := "10 mins", frequency := "Daily",
      intensity := "Low", date := some "7" },
    { type := "Cycling", duration := "20 mins", frequency := "Weekly",
      intensity := "High", date := some "2024-11-14" } ]

/-! ## Lemmas on the handlers -/

theorem missingField_eq_true_iff (form : Workout) :
    missingField form = true ↔
      form.type = "" ∨ form.duration = "" ∨ form.frequency = "" ∨ form.intensity = "" := by
  simp [missingField, or_assoc]

theorem missingField_eq_false_of_valid (form : Workout)
    (h : form.type ≠ "" ∧ form.duration ≠ "" ∧ form.frequency ≠ "" ∧ form.intensity ≠ "") :
    missingField form = false := by
  rcases h with ⟨h1, h2, h3, h4⟩
  simp [missingField, h1, h2, h3, h4]

theorem filterIndexNe_eq (index : Nat) (ws : List Workout) (k : Nat) :
    filterIndexNe index k ws = if index < k then ws else ws.eraseIdx (index - k) := by
  induction ws generalizing k with
  | nil => simp [filterIndexNe]
  | cons w ws ih =>
    rw [filterIndexNe, ih (k + 1)]
    by_cases hk : index < k
    · have h1 : index < k + 1 := by omega
      have h2 : (k != index) = true := by simp; omega
      simp [hk, h1, h2]
    · by_cases he : index = k
      · subst he
        simp
      · have h1 : ¬ index < k + 1 := by omega
        have h2 : (k != index) = true := by simpa using fun h => he h.symm
        have h3 : index - k = (index - (k + 1)) + 1 := by omega
        simp only [hk, h1, h2, if_true, if_false]
        rw [h3, List.eraseIdx_cons_succ]

theorem filterIndexNe_zero (index : Nat) (ws : List Workout) :
    filterIndexNe index 0 ws = ws.eraseIdx index := by
  rw [filterIndexNe_eq]
  simp

theorem startsWithChars_iff (s q : List Char) :
    startsWithChars s q = true ↔ q <+: s := by
  induction s generalizing q with
  | nil =>
    cases q with
    | nil => simp [startsWithChars]
    | cons d q => simp [startsWithChars]
  | cons c s ih =>
    cases q with
    | nil => simp [startsWithChars]
    | cons d q =>
      simp only [startsWithChars, Bool.and_eq_true, beq_iff_eq, ih, List.cons_prefix_cons]
      constructor
      · rintro ⟨h1, h2⟩
        exact ⟨h1.symm, h2⟩
      · rintro ⟨h1, h2⟩
        exact ⟨h1.symm, h2⟩

theorem includesChars_iff (s q : List Char) :
    includesChars s q = true ↔ q <:+: s := by
  induction s with
  | nil =>
    simp only [includesChars, startsWithChars_iff]
    constructor
    · intro h
      exact h.isInfix
    · intro h
      have : q = [] := List.eq_nil_of_infix_nil h
      subst this
      exact List.prefix_refl _
  | cons c s ih =>
    simp only [includesChars, Bool.or_eq_true, startsWithChars_iff, ih]
    rw [List.infix_cons_iff]

theorem includes_iff (s q : String) :
    includes s q = true ↔ q.data <:+: s.data := by
  simp [includes, includesChars_iff]

theorem includes_empty (s : String) : includes s "" = true := by
  rw [includes_iff]
  exact List.nil_infix

/-! ## Lemmas on numbers -/

theorem excessBits_of_lt (fuel m : Nat) (h : m < 2 ^ 53) : excessBits fuel m = 0 := by
  cases fuel with
  | zero => rfl
  | succ fuel =>
    rw [excessBits, if_pos h]

theorem roundedSignificand_of_lt (m : Nat) (h : m < 2 ^ 53) : roundedSignificand m = m := by
  simp [roundedSignificand, excessBits_of_lt _ m h, Nat.mod_one]

theorem toDouble_of_lt (n : Int) (h : n.natAbs < 2 ^ 53) : toDouble n = .finite n := by
  unfold toDouble
  simp only [roundedSignificand_of_lt _ h, excessBits_of_lt _ _ h]
  have hcond : ¬ (971 < 0 ∨ (0 = 971 ∧ n.natAbs = 2 ^ 53)) := by
    rintro (h1 | ⟨h1, _⟩)
    · exact absurd h1 (by decide)
    · exact absurd h1 (by decide)
  rw [if_neg hcond]
  by_cases hn : n < 0
  · rw [if_pos hn]
    congr 1
    simp only [pow_zero, mul_one]
    omega
  · rw [if_neg hn]
    congr 1
    simp only [pow_zero, mul_one]
    omega

theorem numAdd_finite_finite (a b : Int) :
    numAdd (.finite a) (.finite b) = toDouble (a + b) := rfl

theorem digitsValue_append_singleton (cs : List Char) (c : Char) :
    digitsValue (cs ++ [c]) = 10 * digitsValue cs + (c.toNat - 48) := by
  simp [digitsValue, List.foldl_append]

theorem digitsValue_eq_decimalValue (cs : List Char) :
    digitsValue cs = decimalValue cs.reverse := by
  induction cs using List.reverseRecOn with
  | nil => rfl
  | append_singleton cs c ih =>
    rw [digitsValue_append_singleton, List.reverse_append, List.reverse_singleton,
      List.singleton_append, decimalValue, ← ih]
    have : '0'.toNat = 48 := by decide
    omega

theorem isStrWhiteSpaceChar_of_isDigit (c : Char) (h : c.isDigit = true) :
    isStrWhiteSpaceChar c = false := by
  have h1 : 48 ≤ c.toNat ∧ c.toNat ≤ 57 := by
    simpa [Char.isDigit, Char.toNat, UInt32.le_def, Fin.le_def] using h
  simp only [isStrWhiteSpaceChar, Bool.or_eq_false_iff, beq_eq_false_iff_ne, ne_eq,
    Bool.and_eq_false_imp, decide_eq_true_eq, decide_eq_false_iff_not]
  omega

theorem digitRunValue_eq_some (cs : List Char) (m : Nat) (h : digitRunValue cs = some m) :
    (cs.takeWhile Char.isDigit).isEmpty = false ∧
      digitsValue (cs.takeWhile Char.isDigit) = m := by
  unfold digitRunValue at h
  split at h
  · cases h
  · rename_i hne
    refine ⟨?_, ?_⟩
    · cases hrun : cs.takeWhile Char.isDigit with
      | nil => exact absurd hrun hne
      | cons _ _ => rfl
    · rw [digitsValue_eq_decimalValue]
      exact Option.some.inj h

theorem parseInt_of_leadingInteger (s : String) (n : Int)
    (h : leadingInteger s = some n) (hn : n.natAbs < 2 ^ 53) :
    parseInt s = .finite n ∨ (parseInt s = .negZero ∧ n = 0) := by
  unfold leadingInteger at h
  cases hs : s.data with
  | nil => simp [hs] at h
  | cons c cs =>
    rw [hs] at h
    simp only [] at h
    by_cases hminus : c = '-'
    · subst hminus
      rw [if_pos rfl] at h
      obtain ⟨m, hm, hmn⟩ := Option.map_eq_some'.1 h
      obtain ⟨hrun, hval⟩ := digitRunValue_eq_some cs m hm
      have hws : isStrWhiteSpaceChar '-' = false := by decide
      by_cases hz : m = 0
      · right
        subst hz
        refine ⟨?_, hmn.symm.trans (by simp)⟩
        simp [parseInt, hs, List.dropWhile, hws, hrun, hval]
      · left
        have hd : toDouble (-(m : Int)) = .finite (-(m : Int)) :=
          toDouble_of_lt _ (by rw [← hmn] at hn; exact hn)
        simp [parseInt, hs, List.dropWhile, hws, hrun, hval, hz, hd, ← hmn]
    · rw [if_neg hminus] at h
      by_cases hplus : c = '+'
      · subst hplus
        rw [if_pos rfl] at h
        obtain ⟨m, hm, hmn⟩ := Option.map_eq_some'.1 h
        obtain ⟨hrun, hval⟩ := digitRunValue_eq_some cs m hm
        have hws : isStrWhiteSpaceChar '+' = false := by decide
        left
        have hd : toDouble (m : Int) = .finite (m : Int) :=
          toDouble_of_lt _ (by rw [← hmn] at hn; exact hn)
        simp [parseInt, hs, List.dropWhile, hws, hrun, hval, hd, ← hmn]
      · rw [if_neg hplus] at h
        obtain ⟨m, hm, hmn⟩ := Option.map_eq_some'.1 h
        obtain ⟨hrun, hval⟩ := digitRunValue_eq_some (c :: cs) m hm
        have hdigit : c.isDigit = true := by
          by_contra hc
          simp [List.takeWhile, hc] at hrun
        have hws := isStrWhiteSpaceChar_of_isDigit c hdigit
        left
        have hd : toDouble (m : Int) = .finite (m : Int) :=
          toDouble_of_lt _ (by rw [← hmn] at hn; exact hn)
        simp [parseInt, hs, List.dropWhile, hws, hrun, hval, hd, ← hmn, hminus, hplus]

/-! ## Lemmas on the accumulator -/

theorem Accumulator.own_assign_self (acc : Accumulator) (k : String) (v : Value) :
    Accumulator.own (Accumulator.assign acc k v) k = some v := by
  induction acc with
  | nil => simp [Accumulator.assign, Accumulator.own]
  | cons p rest ih =>
    obtain ⟨k', v'⟩ := p
    by_cases h : k' = k
    · simp [Accumulator.assign, Accumulator.own, h]
    · simp [Accumulator.assign, Accumulator.own, h, ih]

theorem Accumulator.own_assign_of_ne (acc : Accumulator) (k d : String) (v : Value)
    (h : d ≠ k) :
    Accumulator.own (Accumulator.assign acc k v) d = Accumulator.own acc d := by
  induction acc with
  | nil => simp [Accumulator.assign, Accumulator.own, Ne.symm h]
  | cons p rest ih =>
    obtain ⟨k', v'⟩ := p
    by_cases hk : k' = k
    · subst hk
      simp [Accumulator.assign, Accumulator.own, Ne.symm h]
    · by_cases hd : k' = d
      · subst hd
        simp [Accumulator.assign, Accumulator.own, hk]
      · simp [Accumulator.assign, Accumulator.own, hk, hd, ih]

theorem Accumulator.own_write_self (acc : Accumulator) (k : String) (v : Value)
    (h : k ≠ "__proto__") :
    Accumulator.own (Accumulator.write acc k v) k = some v := by
  rw [Accumulator.write, if_neg h]
  exact Accumulator.own_assign_self acc k v

theorem Accumulator.own_write_of_ne (acc : Accumulator) (k d : String) (v : Value)
    (h : d ≠ k) :
    Accumulator.own (Accumulator.write acc k v) d = Accumulator.own acc d := by
  unfold Accumulator.write
  split
  · rfl
  · exact Accumulator.own_assign_of_ne acc k d v h

theorem Accumulator.map_fst_assign (acc : Accumulator) (k : String) (v : Value) :
    (Accumulator.assign acc k v).map Prod.fst =
      if k ∈ acc.map Prod.fst then acc.map Prod.fst else acc.map Prod.fst ++ [k] := by
  induction acc with
  | nil => simp [Accumulator.assign]
  | cons p rest ih =>
    obtain ⟨k', v'⟩ := p
    by_cases hk : k' = k
    · subst hk
      simp [Accumulator.assign]
    · have hk' : ¬ k = k' := fun h => hk h.symm
      simp only [Accumulator.assign, hk, if_false, List.map_cons,
        List.mem_cons, hk', false_or, ih]
      split <;> simp

theorem Accumulator.own_eq_none_iff (acc : Accumulator) (k : String) :
    Accumulator.own acc k = none ↔ k ∉ acc.map Prod.fst := by
  induction acc with
  | nil => simp [Accumulator.own]
  | cons p rest ih =>
    obtain ⟨k', v'⟩ := p
    by_cases hk : k' = k
    · simp [Accumulator.own, hk]
    · have hk' : ¬ k = k' := fun h => hk h.symm
      simp only [Accumulator.own, hk, if_false, ih, List.map_cons, List.mem_cons, hk',
        false_or]

theorem Accumulator.own_of_nodup (acc : Accumulator)
    (hnd : (acc.map Prod.fst).Nodup) (i : Nat) (d : String)
    (hd : (acc.map Prod.fst)[i]? = some d) :
    (acc.map Prod.snd)[i]? = Accumulator.own acc d := by
  induction acc generalizing i with
  | nil => simp at hd
  | cons p rest ih =>
    obtain ⟨k', v'⟩ := p
    simp only [List.map_cons, List.nodup_cons] at hnd
    cases i with
    | zero =>
      simp only [List.map_cons, List.getElem?_cons_zero, Option.some.injEq] at hd
      simp [Accumulator.own, hd]
    | succ i =>
      simp only [List.map_cons, List.getElem?_cons_succ] at hd
      have hmem : d ∈ rest.map Prod.fst := List.mem_iff_getElem?.2 ⟨i, hd⟩
      have hne : ¬ k' = d := fun h => hnd.1 (h ▸ hmem)
      have := ih hnd.2 i hd
      simp [Accumulator.own, hne, this]

theorem Accumulator.ordered_eq_self (acc : Accumulator)
    (h : ∀ p ∈ acc, arrayIndex? p.1 = none) : Accumulator.ordered acc = acc := by
  have h1 : acc.filterMap (fun p => (arrayIndex? p.1).map (fun i => (i, p))) = [] := by
    rw [List.filterMap_eq_nil_iff]
    intro p hp
    simp [h p hp]
  have h2 : acc.filter (fun p => (arrayIndex? p.1).isNone) = acc := by
    rw [List.filter_eq_self]
    intro p hp
    simp [h p hp]
  simp [Accumulator.ordered, h1, h2]

/-! ## Lemmas on the aggregation -/

theorem dateKey_eq (w : Workout) : dateKey w = w.date.getD "undefined" := by
  unfold dateKey
  cases w.date <;> rfl

theorem groupedWorkouts_append_singleton (ws : List Workout) (w : Workout) :
    groupedWorkouts (ws ++ [w]) = groupStep (groupedWorkouts ws) w := by
  simp [groupedWorkouts, List.foldl_append]

theorem groupStep_eq_write (acc : Accumulator) (w : Workout) :
    ∃ v, groupStep acc w = Accumulator.write acc (dateKey w) v := by
  unfold groupStep
  simp only []
  split
  · exact ⟨_, rfl⟩
  · exact ⟨_, rfl⟩

theorem own_groupStep_of_ne (acc : Accumulator) (w : Workout) (d : String)
    (h : d ≠ dateKey w) :
    Accumulator.own (groupStep acc w) d = Accumulator.own acc d := by
  obtain ⟨v, hv⟩ := groupStep_eq_write acc w
  rw [hv]
  exact Accumulator.own_write_of_ne _ _ _ _ h

theorem map_fst_groupStep (acc : Accumulator) (w : Workout)
    (h : dateKey w ≠ "__proto__") :
    (groupStep acc w).map Prod.fst =
      if dateKey w ∈ acc.map Prod.fst then acc.map Prod.fst
      else acc.map Prod.fst ++ [dateKey w] := by
  obtain ⟨v, hv⟩ := groupStep_eq_write acc w
  rw [hv, Accumulator.write, if_neg h]
  exact Accumulator.map_fst_assign _ _ _

theorem firstOccurrences_append_singleton (l : List String) (x : String) :
    firstOccurrences (l ++ [x]) =
      if x ∈ l then firstOccurrences l else firstOccurrences l ++ [x] := by
  induction l with
  | nil => simp [firstOccurrences]
  | cons a l ih =>
    simp only [List.cons_append, firstOccurrences, List.append_eq]
    rw [ih]
    by_cases hxa : x = a
    · subst hxa
      by_cases hxl : x ∈ l
      · simp [hxl]
      · simp [hxl, List.filter_append]
    · by_cases hxl : x ∈ l
      · simp [hxl]
      · simp [hxl, hxa, List.filter_append]

theorem mem_firstOccurrences (l : List String) (d : String) :
    d ∈ firstOccurrences l ↔ d ∈ l := by
  induction l with
  | nil => simp [firstOccurrences]
  | cons a l ih =>
    simp only [firstOccurrences, List.mem_cons, List.mem_filter, ih]
    by_cases h : d = a
    · simp [h]
    · simp [h]

theorem nodup_firstOccurrences (l : List String) : (firstOccurrences l).Nodup := by
  induction l with
  | nil => simp [firstOccurrences]
  | cons a l ih =>
    simp only [firstOccurrences, List.nodup_cons]
    refine ⟨?_, ih.filter _⟩
    simp [List.mem_filter]

theorem map_fst_groupedWorkouts (ws : List Workout)
    (h : ∀ w ∈ ws, dateKey w ≠ "__proto__") :
    (groupedWorkouts ws).map Prod.fst = firstOccurrences (ws.map dateKey) := by
  induction ws using List.reverseRecOn with
  | nil => simp [groupedWorkouts, firstOccurrences]
  | append_singleton ws w ih =>
    have hws : ∀ v ∈ ws, dateKey v ≠ "__proto__" :=
      fun v hv => h v (List.mem_append_left _ hv)
    have hw : dateKey w ≠ "__proto__" :=
      h w (List.mem_append_right _ (List.mem_singleton_self w))
    rw [groupedWorkouts_append_singleton, map_fst_groupStep _ _ hw, ih hws, List.map_append,
      List.map_singleton, firstOccurrences_append_singleton]
    simp only [mem_firstOccurrences]

theorem natAbs_sum_le (l : List Int) : l.sum.natAbs ≤ (l.map Int.natAbs).sum := by
  induction l with
  | nil => simp
  | cons a l ih =>
    simp only [List.sum_cons, List.map_cons]
    have := Int.natAbs_add_le a l.sum
    omega

theorem leadingIntegers_append_singleton (d : String) (ws : List Workout) (w : Workout) :
    leadingIntegers d (ws ++ [w]) =
      leadingIntegers d ws ++
        if w.date.getD "undefined" = d then [(leadingInteger w.duration).getD 0] else [] := by
  by_cases h : w.date.getD "undefined" = d
  · simp [leadingIntegers, List.filter_append, h]
  · simp [leadingIntegers, List.filter_append, h]

theorem leadingIntegers_eq_nil (d : String) (ws : List Workout)
    (h : d ∉ ws.map dateKey) : leadingIntegers d ws = [] := by
  unfold leadingIntegers
  rw [List.map_eq_nil_iff, List.filter_eq_nil_iff]
  intro w hw hwd
  apply h
  rw [List.mem_map]
  exact ⟨w, hw, by rw [dateKey_eq]; simpa using hwd⟩

theorem own_groupedWorkouts (d : String) (hname : d ∉ objectPrototypeNames)
    (ws : List Workout)
    (hdur : ∀ w ∈ ws, leadingInteger w.duration ≠ none)
    (hbound : ((leadingIntegers d ws).map Int.natAbs).sum < 2 ^ 53) :
    (d ∉ ws.map dateKey → Accumulator.own (groupedWorkouts ws) d = none) ∧
      (d ∈ ws.map dateKey → ∃ x,
        Accumulator.own (groupedWorkouts ws) d = some (.number x) ∧
          (x = .finite (leadingIntegers d ws).sum ∨
            (x = .negZero ∧ (leadingIntegers d ws).sum = 0))) := by
  have hproto : d ≠ "__proto__" := by
    intro h
    apply hname
    rw [h]
    decide
  induction ws using List.reverseRecOn with
  | nil => simp [groupedWorkouts, Accumulator.own]
  | append_singleton ws w ih =>
    have hws : ∀ v ∈ ws, leadingInteger v.duration ≠ none :=
      fun v hv => hdur v (List.mem_append_left _ hv)
    obtain ⟨n, hn⟩ := Option.ne_none_iff_exists'.1
      (hdur w (List.mem_append_right _ (List.mem_singleton_self w)))
    rw [leadingIntegers_append_singleton] at hbound
    rw [groupedWorkouts_append_singleton, leadingIntegers_append_singleton]
    by_cases hd : d = dateKey w
    · have hkey : w.date.getD "undefined" = d := by rw [hd, dateKey_eq]
      rw [if_pos hkey, hn] at hbound ⊢
      simp only [Option.getD_some, List.map_append, List.map_cons, List.map_nil,
        List.sum_append, List.sum_cons, List.sum_nil, Nat.add_zero, add_zero] at hbound ⊢
      have hbws : ((leadingIntegers d ws).map Int.natAbs).sum < 2 ^ 53 := by omega
      have hnb : n.natAbs < 2 ^ 53 := by omega
      have hSabs := natAbs_sum_le (leadingIntegers d ws)
      have hsum : ((leadingIntegers d ws).sum + n).natAbs < 2 ^ 53 := by
        have := Int.natAbs_add_le (leadingIntegers d ws).sum n
        omega
      obtain ⟨ih1, ih2⟩ := ih hws hbws
      have hp := parseInt_of_leadingInteger w.duration n hn hnb
      refine ⟨fun hnot => absurd (by simp [← hd]) hnot, fun _ => ?_⟩
      have hstep : groupStep (groupedWorkouts ws) w =
          if truthy (Accumulator.read (groupedWorkouts ws) d) then
            Accumulator.write (groupedWorkouts ws) d
              (Value.plus (Accumulator.read (groupedWorkouts ws) d) (parseInt w.duration))
          else Accumulator.write (groupedWorkouts ws) d (.number (parseInt w.duration)) := by
        rw [hd]
        rfl
      by_cases hmem : d ∈ ws.map dateKey
      · obtain ⟨x, hx, hrep⟩ := ih2 hmem
        have hread : Accumulator.read (groupedWorkouts ws) d = .number x := by
          simp [Accumulator.read, hx]
        rw [hstep, hread]
        rcases hrep with hfin | ⟨hneg, hzero⟩
        · by_cases hz : (leadingIntegers d ws).sum = 0
          · have ht : truthy (.number x) = false := by simp [hfin, truthy, hz]
            rw [ht]
            simp only [Bool.false_eq_true, if_false]
            refine ⟨parseInt w.duration, Accumulator.own_write_self _ _ _ hproto, ?_⟩
            rw [hz, zero_add]
            exact hp
          · have ht : truthy (.number x) = true := by simp [hfin, truthy, hz]
            rw [ht]
            simp only [if_true]
            refine ⟨numAdd x (parseInt w.duration),
              Accumulator.own_write_self _ _ _ hproto, Or.inl ?_⟩
            rcases hp with hpf | ⟨hpz, hn0⟩
            · rw [hfin, hpf, numAdd_finite_finite]
              exact toDouble_of_lt _ hsum
            · rw [hfin, hpz, hn0, add_zero]
              rfl
        · have ht : truthy (.number x) = false := by simp [hneg, truthy]
          rw [ht]
          simp only [Bool.false_eq_true, if_false]
          refine ⟨parseInt w.duration, Accumulator.own_write_self _ _ _ hproto, ?_⟩
          rw [hzero, zero_add]
          exact hp
      · have hown := ih1 hmem
        have hread : Accumulator.read (groupedWorkouts ws) d = .undefined := by
          simp [Accumulator.read, hown, hname]
        rw [hstep, hread]
        have ht : truthy .undefined = false := rfl
        rw [ht]
        simp only [Bool.false_eq_true, if_false]
        refine ⟨parseInt w.duration, Accumulator.own_write_self _ _ _ hproto, ?_⟩
        rw [leadingIntegers_eq_nil d ws hmem]
        simpa using hp
    · have hkey : ¬ w.date.getD "undefined" = d := by
        rw [← dateKey_eq]
        exact fun h => hd h.symm
      rw [if_neg hkey] at hbound ⊢
      simp only [List.append_nil] at hbound ⊢
      obtain ⟨ih1, ih2⟩ := ih hws hbound
      rw [own_groupStep_of_ne _ _ _ hd]
      have hmem : d ∈ (ws ++ [w]).map dateKey ↔ d ∈ ws.map dateKey := by
        simp [hd]
      rw [hmem]
      exact ⟨ih1, ih2⟩

/-! ## Submit: rejection, append, replace in place -/

/-- C1: a submit with a draft in which one of `type`, `duration`, `frequency`,
`intensity` is empty returns the state it was given, in add mode and in edit mode:
the same store, the same draft, the same edit flag and the same edit index. -/
theorem handleAddWorkout_rejects_missing_field (s : State)
    (h : s.form.type = "" ∨ s.form.duration = "" ∨ s.form.frequency = "" ∨
      s.form.intensity = "") :
    handleAddWorkout s = some s ∧
      ∀ s', handleAddWorkout s = some s' →
        s'.workouts = s.workouts ∧ s'.workouts.length = s.workouts.length ∧
          s'.form = s.form ∧ s'.isEditing = s.isEditing ∧
          s'.currentEditIndex = s.currentEditIndex := by
  have hm : missingField s.form = true := (missingField_eq_true_iff s.form).2 h
  have hs : handleAddWorkout s = some s := by simp [handleAddWorkout, hm]
  refine ⟨hs, ?_⟩
  intro s' hs'
  rw [hs] at hs'
  cases hs'
  exact ⟨rfl, rfl, rfl, rfl, rfl⟩

/-- Witness for C1: an edit-mode state whose draft has no duration is returned as
it is. -/
theorem handleAddWorkout_rejects_missing_field_witness :
    draftWithoutDuration.isEditing = true ∧ draftWithoutDuration.form.duration = "" ∧
      handleAddWorkout draftWithoutDuration = some draftWithoutDuration :=
  ⟨rfl, rfl,
    (handleAddWorkout_rejects_missing_field draftWithoutDuration (Or.inr (Or.inl rfl))).1⟩

/-- C2: in add mode a submit with a draft whose four checked fields are non-empty,
whatever its date, gives the old store with the draft appended: one record more,
the last record is the draft, the earlier records keep place and content. -/
theorem handleAddWorkout_appends_draft (s : State)
    (hvalid : s.form.type ≠ "" ∧ s.form.duration ≠ "" ∧ s.form.frequency ≠ "" ∧
      s.form.intensity ≠ "")
    (hadd : s.isEditing = false) :
    ∃ s', handleAddWorkout s = some s' ∧
      s'.workouts = s.workouts ++ [s.form] ∧
      s'.workouts.length = s.workouts.length + 1 ∧
      s'.workouts.getLast? = some s.form ∧
      ∀ j, j < s.workouts.length → s'.workouts[j]? = s.workouts[j]? := by
  have hm := missingField_eq_false_of_valid s.form hvalid
  refine ⟨{ s with workouts := s.workouts ++ [s.form], form := clearedForm }, ?_, rfl, ?_, ?_, ?_⟩
  · simp [handleAddWorkout, hm, hadd]
  · simp
  · simp
  · intro j hj
    simp [List.getElem?_append_left hj]

/-- Witness for C2: a valid draft without a date is appended to the three initial
records. -/
theorem handleAddWorkout_appends_draft_witness :
    draftWithoutDate.form.date = none ∧
      ∃ s', handleAddWorkout draftWithoutDate = some s' ∧
        s'.workouts = draftWithoutDate.workouts ++ [draftWithoutDate.form] ∧
        s'.workouts.length = draftWithoutDate.workouts.length + 1 ∧
        s'.workouts.getLast? = some draftWithoutDate.form ∧
        ∀ j, j < draftWithoutDate.workouts.length →
          s'.workouts[j]? = draftWithoutDate.workouts[j]? :=
  ⟨rfl, handleAddWorkout_appends_draft draftWithoutDate (by decide) rfl⟩

/-- C3: in edit mode, with the tracked index `i` inside the store, a submit with a
valid draft gives a store of the same length whose record `i` is the draft and
whose records at the other positions are the old ones. -/
theorem handleAddWorkout_replaces_in_place (s : State) (i : Nat)
    (hvalid : s.form.type ≠ "" ∧ s.form.duration ≠ "" ∧ s.form.frequency ≠ "" ∧
      s.form.intensity ≠ "")
    (hedit : s.isEditing = true) (hindex : s.currentEditIndex = some i)
    (hi : i < s.workouts.length) :
    ∃ s', handleAddWorkout s = some s' ∧
      s'.workouts.length = s.workouts.length ∧
      s'.workouts[i]? = some s.form ∧
      ∀ j, j ≠ i → s'.workouts[j]? = s.workouts[j]? := by
  have hm := missingField_eq_false_of_valid s.form hvalid
  refine ⟨{ s with workouts := s.workouts.set i s.form, isEditing := false,
                   currentEditIndex := none, form := clearedForm }, ?_, ?_, ?_, ?_⟩
  · simp [handleAddWorkout, hm, hedit, hindex, arrayAssign, hi]
  · simp
  · simp [hi]
  · intro j hj
    simp [List.getElem?_set_ne (Ne.symm hj)]

/-- Witness for C3: a commit on row 1 of the three initial records. -/
theorem handleAddWorkout_replaces_in_place_witness :
    ∃ s', handleAddWorkout editingSecondRow = some s' ∧
      s'.workouts.length = editingSecondRow.workouts.length ∧
      s'.workouts[1]? = some editingSecondRow.form ∧
      ∀ j, j ≠ 1 → s'.workouts[j]? = editingSecondRow.workouts[j]? :=
  handleAddWorkout_replaces_in_place editingSecondRow 1 (by decide) rfl rfl (by decide)

/-! ## Delete -/

/-- C4: for an index `i` inside the store, `handleDeleteWorkout` gives the store
with position `i` erased: one record less, the records before `i` keep their
position, the records after `i` move up by one, the result is a sublist of the
store, and when the records of the store are pairwise different the removed
record does not occur in the result. -/
theorem handleDeleteWorkout_erases_position (s : State) (i : Nat)
    (hi : i < s.workouts.length) :
    (handleDeleteWorkout s i).workouts = s.workouts.eraseIdx i ∧
      (handleDeleteWorkout s i).workouts.length + 1 = s.workouts.length ∧
      (∀ j, j < i → (handleDeleteWorkout s i).workouts[j]? = s.workouts[j]?) ∧
      (∀ j, i ≤ j → (handleDeleteWorkout s i).workouts[j]? = s.workouts[j + 1]?) ∧
      List.Sublist (handleDeleteWorkout s i).workouts s.workouts ∧
      (s.workouts.Nodup → ∀ r, s.workouts[i]? = some r →
        r ∉ (handleDeleteWorkout s i).workouts) := by
  have he : (handleDeleteWorkout s i).workouts = s.workouts.eraseIdx i := by
    simp [handleDeleteWorkout, filterIndexNe_zero]
  rw [he]
  refine ⟨rfl, ?_, ?_, ?_, ?_, ?_⟩
  · rw [List.length_eraseIdx, if_pos hi]
    omega
  · intro j hj
    rw [List.getElem?_eraseIdx, if_pos hj]
  · intro j hj
    have : ¬ j < i := by omega
    rw [List.getElem?_eraseIdx, if_neg this]
  · exact List.eraseIdx_sublist _ _
  · intro hnd r hr hmem
    obtain ⟨j, hji, hj⟩ := List.mem_eraseIdx_iff_getElem?.1 hmem
    obtain ⟨hjl, hjr⟩ := List.getElem?_eq_some.1 hj
    obtain ⟨_, hir⟩ := List.getElem?_eq_some.1 hr
    exact hji ((@List.Nodup.getElem_inj_iff _ _ hnd j hjl i hi).1 (hjr.trans hir.symm))

/-- Witness for C4: Delete on row 1 of the first render erases position 1. -/
theorem handleDeleteWorkout_erases_position_witness :
    1 < initialState.workouts.length ∧
      (handleDeleteWorkout initialState 1).workouts = initialState.workouts.eraseIdx 1 :=
  ⟨by decide, (handleDeleteWorkout_erases_position initialState 1 (by decide)).1⟩

/-! ## The filtered view -/

/-- C5: for a lower-casing function that keeps the empty string, the filtered view
is the store filtered by the test that lower-cased `type` or lower-cased
`intensity` has the lower-cased query as a substring (an infix of its characters):
it is a sublist of the store, it holds exactly the records that pass, and for the
empty query it is the store itself. -/
theorem filteredWorkouts_is_matching_sublist (toLowerCase : String → String)
    (hempty : toLowerCase "" = "") (workouts : List Workout) (q : String) :
    filteredWorkouts toLowerCase workouts q =
        workouts.filter (fun w =>
          decide ((toLowerCase q).data <:+: (toLowerCase w.type).data) ||
            decide ((toLowerCase q).data <:+: (toLowerCase w.intensity).data)) ∧
      List.Sublist (filteredWorkouts toLowerCase workouts q) workouts ∧
      (∀ w, w ∈ filteredWorkouts toLowerCase workouts q ↔
        w ∈ workouts ∧ ((toLowerCase q).data <:+: (toLowerCase w.type).data ∨
          (toLowerCase q).data <:+: (toLowerCase w.intensity).data)) ∧
      filteredWorkouts toLowerCase workouts "" = workouts := by
  have hpred : ∀ w : Workout, matchesFilter toLowerCase q w =
      (decide ((toLowerCase q).data <:+: (toLowerCase w.type).data) ||
        decide ((toLowerCase q).data <:+: (toLowerCase w.intensity).data)) := by
    intro w
    rw [Bool.eq_iff_iff]
    simp [matchesFilter, includes_iff]
  have hfilter : filteredWorkouts toLowerCase workouts q =
      workouts.filter (matchesFilter toLowerCase q) := by
    by_cases hq : q = ""
    · subst hq
      have hall : ∀ w ∈ workouts, matchesFilter toLowerCase "" w = true := by
        intro w _
        simp [matchesFilter, hempty, includes_empty]
      simp [filteredWorkouts, List.filter_eq_self.2 hall]
    · simp [filteredWorkouts, hq]
  have heq : filteredWorkouts toLowerCase workouts q =
      workouts.filter (fun w =>
        decide ((toLowerCase q).data <:+: (toLowerCase w.type).data) ||
          decide ((toLowerCase q).data <:+: (toLowerCase w.intensity).data)) := by
    rw [hfilter]
    exact List.filter_congr (fun w _ => hpred w)
  refine ⟨heq, ?_, ?_, ?_⟩
  · rw [heq]
    exact List.filter_sublist _
  · intro w
    rw [heq]
    simp [List.mem_filter]
  · simp [filteredWorkouts]

/-- Witness for C5: the ASCII lower-casing and the query `LOW` on the three
initial records. -/
theorem filteredWorkouts_is_matching_sublist_witness :
    asciiLower "" = "" ∧
      List.Sublist (filteredWorkouts asciiLower initialWorkouts "LOW") initialWorkouts ∧
      filteredWorkouts asciiLower initialWorkouts "" = initialWorkouts :=
  ⟨by decide,
    (filteredWorkouts_is_matching_sublist asciiLower (by decide) initialWorkouts "LOW").2.1,
    (filteredWorkouts_is_matching_sublist asciiLower (by decide) initialWorkouts "LOW").2.2.2⟩

/-! ## The aggregation per date -/

/-- C6, as amended: when every duration starts with an integer, the date key `d`
occurs in the list and is not a name of `Object.prototype`, and the absolute
values of the integers of the records of `d` sum to less than `2 ^ 53`, the value
that `groupedWorkouts` holds for `d` is a number equal to the sum of the integers
that the durations of exactly the records of `d` start with (as a double it is
that sum, or the negative zero when the sum is `0`); no condition excludes
running totals that pass through `0`. -/
theorem groupedWorkouts_exact_total_per_date (workouts : List Workout) (d : String)
    (hdur : ∀ w ∈ workouts, leadingInteger w.duration ≠ none)
    (hd : ∃ w ∈ workouts, w.date.getD "undefined" = d)
    (hname : d ∉ objectPrototypeNames)
    (hbound : (((workouts.filter (fun w => w.date.getD "undefined" == d)).map
      (fun w => (leadingInteger w.duration).getD 0)).map Int.natAbs).sum < 2 ^ 53) :
    ∃ x, Accumulator.read (groupedWorkouts workouts) d = Value.number x ∧
      (x = JSNumber.finite (((workouts.filter (fun w => w.date.getD "undefined" == d)).map
          (fun w => (leadingInteger w.duration).getD 0)).sum) ∨
        (x = JSNumber.negZero ∧
          ((workouts.filter (fun w => w.date.getD "undefined" == d)).map
            (fun w => (leadingInteger w.duration).getD 0)).sum = 0)) := by
  have hmem : d ∈ workouts.map dateKey := by
    obtain ⟨w, hw, hwd⟩ := hd
    exact List.mem_map.2 ⟨w, hw, by rw [dateKey_eq]; exact hwd⟩
  obtain ⟨x, hx, hrep⟩ := (own_groupedWorkouts d hname workouts hdur hbound).2 hmem
  refine ⟨x, ?_, hrep⟩
  simp [Accumulator.read, hx]

/-- Witness for C6: the date `2024-11-14` of the three example records. -/
theorem groupedWorkouts_exact_total_per_date_witness :
    ∃ x, Accumulator.read (groupedWorkouts exampleWorkouts) "2024-11-14" = Value.number x ∧
      (x = JSNumber.finite
          (((exampleWorkouts.filter (fun w => w.date.getD "undefined" == "2024-11-14")).map
            (fun w => (leadingInteger w.duration).getD 0)).sum) ∨
        (x = JSNumber.negZero ∧
          ((exampleWorkouts.filter (fun w => w.date.getD "undefined" == "2024-11-14")).map
            (fun w => (leadingInteger w.duration).getD 0)).sum = 0)) :=
  groupedWorkouts_exact_total_per_date exampleWorkouts "2024-11-14" (by decide) (by decide)
    (by decide) (by decide)

/-- C6, counterexample: one record of the date `2024-11-14` whose duration is the
numeral of `2 ^ 53 + 1`. The duration starts with the integer `9007199254740993`,
the sum for the date is that integer, and the value that `groupedWorkouts` holds
is the double `9007199254740992`. -/
theorem groupedWorkouts_total_beyond_exact_range :
    (∀ w ∈ beyondExactRange, leadingInteger w.duration ≠ none) ∧
      ((beyondExactRange.filter (fun w => w.date.getD "undefined" == "2024-11-14")).map
        (fun w => (leadingInteger w.duration).getD 0)).sum = 9007199254740993 ∧
      Accumulator.read (groupedWorkouts beyondExactRange) "2024-11-14" =
        Value.number (JSNumber.finite 9007199254740992) ∧
      Accumulator.read (groupedWorkouts beyondExactRange) "2024-11-14" ≠
        Value.number (JSNumber.finite 9007199254740993) := by
  decide

/-- The three example records give `40` for `2024-11-14` and `20` for `2024-11-12`,
in this order of keys. -/
theorem chartData_example :
    chartData exampleWorkouts =
      { labels := ["2024-11-14", "2024-11-12"],
        data := [Value.number (JSNumber.finite 40), Value.number (JSNumber.finite 20)] } := by
  decide

/-- Durations `5`, `-5`, `7` on one date: the running total is `0` after the second
record and the final total is `7`. -/
theorem groupedWorkouts_through_zero :
    groupedWorkouts (totalThroughZero.take 2) =
        [("2024-11-14", Value.number (JSNumber.finite 0))] ∧
      groupedWorkouts totalThroughZero =
        [("2024-11-14", Value.number (JSNumber.finite 7))] := by
  decide

/-- C7, as amended: when no date key of the records is an array index or the name
`__proto__`, the labels of the chart are the distinct date keys of the records
(the date string, or the word `undefined` for a record without a date), each
once, in the order of their first occurrence; the data list is as long as the
label list, and `data[i]` is the value that `groupedWorkouts` holds for
`labels[i]`. -/
theorem chartData_labels_first_occurrence (workouts : List Workout)
    (hkeys : ∀ w ∈ workouts, arrayIndex? (w.date.getD "undefined") = none ∧
      w.date.getD "undefined" ≠ "__proto__") :
    (chartData workouts).labels =
        firstOccurrences (workouts.map (fun w => w.date.getD "undefined")) ∧
      (chartData workouts).labels.Nodup ∧
      (∀ d, d ∈ (chartData workouts).labels ↔
        ∃ w ∈ workouts, w.date.getD "undefined" = d) ∧
      (chartData workouts).data.length = (chartData workouts).labels.length ∧
      ∀ (i : Nat) (d : String), (chartData workouts).labels[i]? = some d →
        (chartData workouts).data[i]? =
          some (Accumulator.read (groupedWorkouts workouts) d) := by
  have hfun : workouts.map dateKey = workouts.map (fun w => w.date.getD "undefined") :=
    List.map_congr_left (fun w _ => dateKey_eq w)
  have hraw : (groupedWorkouts workouts).map Prod.fst =
      firstOccurrences (workouts.map (fun w => w.date.getD "undefined")) := by
    rw [← hfun]
    exact map_fst_groupedWorkouts workouts
      (fun w hw => by rw [dateKey_eq]; exact (hkeys w hw).2)
  have hplain : ∀ p ∈ groupedWorkouts workouts, arrayIndex? p.1 = none := by
    intro p hp
    have hmem : p.1 ∈ (groupedWorkouts workouts).map Prod.fst := List.mem_map_of_mem _ hp
    rw [hraw, mem_firstOccurrences, List.mem_map] at hmem
    obtain ⟨w, hw, hwp⟩ := hmem
    rw [← hwp]
    exact (hkeys w hw).1
  have hord := Accumulator.ordered_eq_self (groupedWorkouts workouts) hplain
  have hlabels : (chartData workouts).labels = (groupedWorkouts workouts).map Prod.fst := by
    simp [chartData, Accumulator.keys, hord]
  have hdata : (chartData workouts).data = (groupedWorkouts workouts).map Prod.snd := by
    simp [chartData, Accumulator.values, hord]
  have hnd : ((groupedWorkouts workouts).map Prod.fst).Nodup := by
    rw [hraw]
    exact nodup_firstOccurrences _
  rw [hlabels, hdata]
  refine ⟨hraw, hnd, ?_, ?_, ?_⟩
  · intro d
    rw [hraw, mem_firstOccurrences, List.mem_map]
  · simp
  · intro i d hi
    rw [Accumulator.own_of_nodup (groupedWorkouts workouts) hnd i d hi]
    cases hown : Accumulator.own (groupedWorkouts workouts) d with
    | none =>
      exact absurd (List.mem_iff_getElem?.2 ⟨i, hi⟩)
        ((Accumulator.own_eq_none_iff _ _).1 hown)
    | some v => simp [Accumulator.read, hown]

/-- Witness for C7: the three records of the first render. -/
theorem chartData_labels_first_occurrence_witness :
    (chartData initialWorkouts).labels =
        firstOccurrences (initialWorkouts.map (fun w => w.date.getD "undefined")) ∧
      (chartData initialWorkouts).labels.Nodup ∧
      (∀ d, d ∈ (chartData initialWorkouts).labels ↔
        ∃ w ∈ initialWorkouts, w.date.getD "undefined" = d) ∧
      (chartData initialWorkouts).data.length = (chartData initialWorkouts).labels.length ∧
      ∀ (i : Nat) (d : String), (chartData initialWorkouts).labels[i]? = some d →
        (chartData initialWorkouts).data[i]? =
          some (Accumulator.read (groupedWorkouts initialWorkouts) d) :=
  chartData_labels_first_occurrence initialWorkouts (by decide)

/-- C7, counterexample: three records with the dates `2024`, `7` and `2024-11-14`
in this order. The first two keys are array indices, so the labels of the chart
start with `7` and `2024`, while the order of first occurrence starts with `2024`
and `7`. -/
theorem chartData_labels_array_index_keys :
    (chartData numeralDates).labels = ["7", "2024", "2024-11-14"] ∧
      firstOccurrences (numeralDates.map (fun w => w.date.getD "undefined")) =
        ["2024", "7", "2024-11-14"] ∧
      (chartData numeralDates).labels ≠
        firstOccurrences (numeralDates.map (fun w => w.date.getD "undefined")) := by
  decide

/-! ## Evaluations at concrete inputs -/

/-- C8: two records of the date `2024-11-14`, the first with the duration `abc`,
which `parseInt` turns into `NaN`, the second with `30 mins`: the total that
`groupedWorkouts` holds for the date is `30`, not `NaN`, because the `NaN` left by
the first record is falsy and the second record takes the branch of line 74. -/
theorem groupedWorkouts_unparsable_first :
    parseInt "abc" = JSNumber.nan ∧
      groupedWorkouts (unparsableFirst.take 1) =
        [("2024-11-14", Value.number JSNumber.nan)] ∧
      Accumulator.read (groupedWorkouts unparsableFirst) "2024-11-14" =
        Value.number (JSNumber.finite 30) := by
  decide

/-- C9: from the first render, Edit on row 2 and then Delete on row 2 lead to a
state in edit mode whose tracked index `2` is the length of the store; the commit
that follows writes at that index and the store grows from two records to three. -/
theorem stale_edit_index_after_delete :
    run asciiLower initialState [Action.edit 2, Action.delete 2] = some staleEditState ∧
      staleEditState.isEditing = true ∧
      staleEditState.currentEditIndex = some 2 ∧
      staleEditState.workouts.length = 2 ∧
      (run asciiLower initialState [Action.edit 2, Action.delete 2, Action.submit]).map
        (fun s => s.workouts.length) = some 3 := by
  decide

/-- C10: with the three initial records and the filter `yoga`, row 0 of the
displayed list is the record `Yoga`, which is `workouts[1]`, while `workouts[0]` is
the record `Running`: Edit on row 0 loads `Running` into the draft and Delete on
row 0 removes `Running` and keeps `Yoga`. -/
theorem row_buttons_address_unfiltered_store :
    (filteredWorkouts asciiLower filteredByYoga.workouts filteredByYoga.filter)[0]? =
        initialWorkouts[1]? ∧
      filteredByYoga.workouts[0]? = initialWorkouts[0]? ∧
      initialWorkouts[0]? ≠ initialWorkouts[1]? ∧
      (step asciiLower filteredByYoga (Action.edit 0)).map (fun s => s.form) =
        initialWorkouts[0]? ∧
      (step asciiLower filteredByYoga (Action.delete 0)).map (fun s => s.workouts) =
        some (initialWorkouts.drop 1) := by
  decide

end WorkoutTracking
